import Mathlib

/-!
Verification of the sketch build pipeline of `arduino-cli` (sysprogs fork),
as a shallow embedding in Lean 4.

Conventions used throughout:
* Go `*paths.Path` values are modelled as `String` (a cleaned, canonical
  path) or `Option String` where the Go code can hold a `nil` pointer.
* File modification times are `Nat`; Go `t1.After(t2)` is strict `t1 > t2`.
* Fallible Go functions returning `(T, error)` become `Except GoError T`.
* A Go runtime panic (index out of range) is modelled as a dedicated
  `GoError` constructor, so that "crashes" are observable in the embedding.
-/

set_option maxRecDepth 100000

/-! ## The include-discovery journal (`includeCache`)
Embedded from `legacy/builder/container_find_includes.go`. -/

/-- One journal entry (`includeCacheEntry`): `Sourcefile`, `Include`,
`Includepath`.  `Sourcefile` and `Includepath` are nilable `*paths.Path`. -/
structure IncludeCacheEntry where
  Sourcefile : Option String
  Include : String
  Includepath : Option String
deriving DecidableEq, Repr

/-- Rendering of a nilable path by Go `fmt` with verb `%s`: a nil pointer
prints as `<nil>`, otherwise `Path.String()` prints the path. -/
def optPathString : Option String → String
  | none => "<nil>"
  | some s => s

/-- `includeCacheEntry.String()`:
`fmt.Sprintf("SourceFile: %s; Include: %s; IncludePath: %s", ...)`. -/
def IncludeCacheEntry.render (entry : IncludeCacheEntry) : String :=
  "SourceFile: " ++ optPathString entry.Sourcefile ++
    "; Include: " ++ entry.Include ++
    "; IncludePath: " ++ optPathString entry.Includepath

/-- `includeCacheEntry.Equals`: Go compares the two rendered strings. -/
def IncludeCacheEntry.EqualsTo (entry other : IncludeCacheEntry) : Bool :=
  entry.render == other.render

/-- The journal cache state (`includeCache`): a validity flag, the cursor
`next` into `entries`, and the entry list. -/
structure IncludeCache where
  valid : Bool
  next : Nat
  entries : List IncludeCacheEntry
deriving DecidableEq, Repr

/-- `includeCache.Next()`: the entry at the cursor.  The Go code indexes
`cache.entries[cache.next]` and is only called in range; out-of-range
yields `none` here (Go would panic). -/
def IncludeCache.NextEntry (cache : IncludeCache) : Option IncludeCacheEntry :=
  cache.entries.get? cache.next

/-- `includeCache.ExpectFile(sourcefile)`: if the cache is valid and the
next entry is missing or about a different file, invalidate and truncate
to the verified part.  Callers always pass a non-nil source path; the Go
comparison is `Next().Sourcefile.EqualsTo(sourcefile)` (a nil
`Sourcefile` in the entry would panic in Go; it is modelled as a
mismatch, which the theorems below never rely on). -/
def IncludeCache.ExpectFile (cache : IncludeCache) (sourcefile : String) : IncludeCache :=
  if cache.valid ∧
      (cache.next ≥ cache.entries.length ∨
        ¬ (cache.NextEntry.bind (·.Sourcefile)) = some sourcefile) then
    { cache with valid := false, entries := cache.entries.take cache.next }
  else
    cache

/-- `includeCache.ExpectEntry(sourcefile, include, librarypath)` together
with the list of entries it appends (`[]` or the one new entry).  If the
cache is valid and the next entry equals the given one, the cursor
advances; otherwise the cache is invalidated and truncated, and the entry
is appended (it is always appended when the cache is or becomes
invalid). -/
def IncludeCache.ExpectEntryF (cache : IncludeCache) (sourcefile : Option String)
    (includeName : String) (librarypath : Option String) :
    IncludeCache × List IncludeCacheEntry :=
  let entry : IncludeCacheEntry :=
    { Sourcefile := sourcefile, Include := includeName, Includepath := librarypath }
  let cache' :=
    if cache.valid then
      if cache.next < cache.entries.length ∧
          (cache.NextEntry.getD entry).EqualsTo entry then
        { cache with next := cache.next + 1 }
      else
        { cache with valid := false, entries := cache.entries.take cache.next }
    else cache
  if cache'.valid then (cache', [])
  else ({ cache' with entries := cache'.entries ++ [entry] }, [entry])

/-- `includeCache.ExpectEntry`, state part only. -/
def IncludeCache.ExpectEntry (cache : IncludeCache) (sourcefile : Option String)
    (includeName : String) (librarypath : Option String) : IncludeCache :=
  (cache.ExpectEntryF sourcefile includeName librarypath).1

/-- `includeCache.ExpectEnd()`: if the cache is valid but not fully
consumed, invalidate and truncate. -/
def IncludeCache.ExpectEnd (cache : IncludeCache) : IncludeCache :=
  if cache.valid ∧ cache.next < cache.entries.length then
    { cache with valid := false, entries := cache.entries.take cache.next }
  else
    cache

/-- One journal operation performed during a discovery run. -/
inductive CacheOp where
  | expectFile (sourcefile : String)
  | expectEntry (sourcefile : Option String) (includeName : String) (librarypath : Option String)
  | expectEnd
deriving DecidableEq, Repr

/-- Apply one operation, returning the new cache and the freshly appended
entries of that operation. -/
def applyCacheOpF (cache : IncludeCache) (op : CacheOp) : IncludeCache × List IncludeCacheEntry :=
  match op with
  | .expectFile sourcefile => (cache.ExpectFile sourcefile, [])
  | .expectEntry sourcefile includeName librarypath =>
      cache.ExpectEntryF sourcefile includeName librarypath
  | .expectEnd => (cache.ExpectEnd, [])

/-- Apply one operation (state part). -/
def applyCacheOp (cache : IncludeCache) (op : CacheOp) : IncludeCache :=
  (applyCacheOpF cache op).1

/-- Run a whole sequence of journal operations. -/
def runCacheOps (cache : IncludeCache) (ops : List CacheOp) : IncludeCache :=
  ops.foldl applyCacheOp cache

/-- All entries freshly appended over a run (in append order). -/
def freshAppends (cache : IncludeCache) (ops : List CacheOp) : List IncludeCacheEntry :=
  match ops with
  | [] => []
  | op :: rest =>
      (applyCacheOpF cache op).2 ++ freshAppends (applyCacheOp cache op) rest

/-- `readCache` on a successfully parsed file: entries as loaded, cursor
at the start, cache valid. -/
def loadedCache (entries : List IncludeCacheEntry) : IncludeCache :=
  { valid := true, next := 0, entries := entries }

/-! ### Journal lemmas -/

/-- Once the cache is invalid, every operation leaves it invalid and only
appends its fresh entries at the end. -/
theorem applyCacheOp_of_invalid (c : IncludeCache) (op : CacheOp) (h : c.valid = false) :
    (applyCacheOp c op).valid = false ∧
      (applyCacheOp c op).entries = c.entries ++ (applyCacheOpF c op).2 := by
  cases op with
  | expectFile sourcefile =>
      simp [applyCacheOp, applyCacheOpF, IncludeCache.ExpectFile, h]
  | expectEntry sourcefile includeName librarypath =>
      simp [applyCacheOp, applyCacheOpF, IncludeCache.ExpectEntryF, h]
  | expectEnd =>
      simp [applyCacheOp, applyCacheOpF, IncludeCache.ExpectEnd, h]

/-- An operation that keeps a valid cache valid does not change the entry
list and appends nothing. -/
theorem applyCacheOp_valid_valid (c : IncludeCache) (op : CacheOp)
    (h : c.valid = true) (h2 : (applyCacheOp c op).valid = true) :
    (applyCacheOp c op).entries = c.entries ∧ (applyCacheOpF c op).2 = [] := by
  cases op with
  | expectFile sourcefile =>
      simp only [applyCacheOp, applyCacheOpF, IncludeCache.ExpectFile] at h2 ⊢
      by_cases hcond : c.valid = true ∧
          (c.next ≥ c.entries.length ∨
            ¬ (c.NextEntry.bind (·.Sourcefile)) = some sourcefile) <;>
        simp [hcond] at h2 ⊢
  | expectEntry sourcefile includeName librarypath =>
      simp only [applyCacheOp, applyCacheOpF, IncludeCache.ExpectEntryF, h,
        if_true] at h2 ⊢
      by_cases hcond : c.next < c.entries.length ∧
          (c.NextEntry.getD ⟨sourcefile, includeName, librarypath⟩).EqualsTo
            ⟨sourcefile, includeName, librarypath⟩ = true <;>
        simp [hcond, h] at h2 ⊢
  | expectEnd =>
      simp only [applyCacheOp, applyCacheOpF, IncludeCache.ExpectEnd] at h2 ⊢
      by_cases hcond : c.valid = true ∧ c.next < c.entries.length <;>
        simp [hcond] at h2 ⊢

/-- An operation that invalidates a valid cache truncates the entries to
the verified part and appends exactly its fresh entries. -/
theorem applyCacheOp_valid_invalid (c : IncludeCache) (op : CacheOp)
    (h : c.valid = true) (h2 : (applyCacheOp c op).valid = false) :
    (applyCacheOp c op).entries = c.entries.take c.next ++ (applyCacheOpF c op).2 := by
  cases op with
  | expectFile sourcefile =>
      simp only [applyCacheOp, applyCacheOpF, IncludeCache.ExpectFile] at h2 ⊢
      by_cases hcond : c.valid = true ∧
          (c.next ≥ c.entries.length ∨
            ¬ (c.NextEntry.bind (·.Sourcefile)) = some sourcefile) <;>
        simp [hcond] at h2 ⊢ <;> simp_all
  | expectEntry sourcefile includeName librarypath =>
      simp only [applyCacheOp, applyCacheOpF, IncludeCache.ExpectEntryF, h,
        if_true] at h2 ⊢
      by_cases hcond : c.next < c.entries.length ∧
          (c.NextEntry.getD ⟨sourcefile, includeName, librarypath⟩).EqualsTo
            ⟨sourcefile, includeName, librarypath⟩ = true <;>
        simp [hcond, h] at h2 ⊢
  | expectEnd =>
      simp only [applyCacheOp, applyCacheOpF, IncludeCache.ExpectEnd] at h2 ⊢
      by_cases hcond : c.valid = true ∧ c.next < c.entries.length <;>
        simp [hcond] at h2 ⊢ <;> simp_all

/-- Runs from an invalid cache stay invalid and only append the fresh
entries, in order, at the end. -/
theorem runCacheOps_of_invalid (ops : List CacheOp) :
    ∀ c : IncludeCache, c.valid = false →
      (runCacheOps c ops).valid = false ∧
        (runCacheOps c ops).entries = c.entries ++ freshAppends c ops := by
  induction ops with
  | nil => intro c h; simpa [runCacheOps, freshAppends] using h
  | cons op rest ih =>
      intro c h
      have hstep := applyCacheOp_of_invalid c op h
      have hrest := ih (applyCacheOp c op) hstep.1
      refine ⟨hrest.1, ?_⟩
      calc (runCacheOps c (op :: rest)).entries
          = (runCacheOps (applyCacheOp c op) rest).entries := rfl
        _ = (applyCacheOp c op).entries ++ freshAppends (applyCacheOp c op) rest := hrest.2
        _ = c.entries ++ ((applyCacheOpF c op).2 ++ freshAppends (applyCacheOp c op) rest) := by
              rw [hstep.2, List.append_assoc]
        _ = c.entries ++ freshAppends c (op :: rest) := rfl

/-- Core prefix lemma: a run that starts from a valid cache and ends
invalid leaves a prefix of the starting entries followed by exactly the
freshly appended entries. -/
theorem runCacheOps_valid_start (ops : List CacheOp) :
    ∀ c : IncludeCache, c.valid = true → (runCacheOps c ops).valid = false →
      ∃ k, (runCacheOps c ops).entries = c.entries.take k ++ freshAppends c ops := by
  induction ops with
  | nil => intro c h h2; rw [show runCacheOps c [] = c from rfl] at h2; simp_all
  | cons op rest ih =>
      intro c h h2
      have hrun : runCacheOps c (op :: rest) = runCacheOps (applyCacheOp c op) rest := rfl
      have hfresh : freshAppends c (op :: rest)
          = (applyCacheOpF c op).2 ++ freshAppends (applyCacheOp c op) rest := rfl
      by_cases hv : (applyCacheOp c op).valid = true
      · have hstep := applyCacheOp_valid_valid c op h hv
        obtain ⟨k, hk⟩ := ih (applyCacheOp c op) hv (by rw [hrun] at h2; exact h2)
        refine ⟨k, ?_⟩
        rw [hrun, hk, hstep.1, hfresh, hstep.2, List.nil_append]
      · have hv' : (applyCacheOp c op).valid = false := by
          revert hv; cases (applyCacheOp c op).valid <;> simp
        have hstep := applyCacheOp_valid_invalid c op h hv'
        have hrest := (runCacheOps_of_invalid rest (applyCacheOp c op) hv')
        refine ⟨c.next, ?_⟩
        rw [hrun, hrest.2, hstep, hfresh, List.append_assoc]

/-- C9: within a run, once the journal cache has become invalid it stays
invalid under any further sequence of journal operations. -/
theorem includeCache_validity_monotone (c : IncludeCache) (ops₁ ops₂ : List CacheOp)
    (h : (runCacheOps c ops₁).valid = false) :
    (runCacheOps c (ops₁ ++ ops₂)).valid = false := by
  have : runCacheOps c (ops₁ ++ ops₂) = runCacheOps (runCacheOps c ops₁) ops₂ :=
    List.foldl_append ..
  rw [this]
  exact (runCacheOps_of_invalid ops₂ (runCacheOps c ops₁) h).1

/-- Witness for `includeCache_validity_monotone` at a concrete journal. -/
theorem includeCache_validity_monotone_witness :
    (runCacheOps (loadedCache [⟨none, "", some "/core"⟩]) [.expectEnd]).valid = false ∧
      (runCacheOps (loadedCache [⟨none, "", some "/core"⟩])
        ([.expectEnd] ++ [.expectEntry none "" (some "/core"), .expectEnd])).valid = false :=
  ⟨by decide,
   includeCache_validity_monotone (loadedCache [⟨none, "", some "/core"⟩])
     [.expectEnd] [.expectEntry none "" (some "/core"), .expectEnd] (by decide)⟩

/-- C2: if a discovery run over a loaded journal ends with the cache
invalidated, the resulting entry list is a prefix of the loaded entries
followed by the freshly appended entries — never an interleaving. -/
theorem cache_prefix_plus_fresh (entries : List IncludeCacheEntry) (ops : List CacheOp)
    (h : (runCacheOps (loadedCache entries) ops).valid = false) :
    ∃ k, (runCacheOps (loadedCache entries) ops).entries
        = entries.take k ++ freshAppends (loadedCache entries) ops :=
  runCacheOps_valid_start ops (loadedCache entries) rfl h

/-- Witness for `cache_prefix_plus_fresh`: a concrete run that matches the
first loaded entry, mismatches on the second, and appends a fresh one. -/
theorem cache_prefix_plus_fresh_witness :
    (runCacheOps (loadedCache
        [⟨some "/s/a.cpp", "A.h", some "/lib/A"⟩, ⟨some "/s/a.cpp", "B.h", some "/lib/B"⟩])
        [.expectEntry (some "/s/a.cpp") "A.h" (some "/lib/A"),
         .expectEntry (some "/s/a.cpp") "C.h" (some "/lib/C"),
         .expectEnd]).valid = false ∧
      ∃ k, (runCacheOps (loadedCache
        [⟨some "/s/a.cpp", "A.h", some "/lib/A"⟩, ⟨some "/s/a.cpp", "B.h", some "/lib/B"⟩])
        [.expectEntry (some "/s/a.cpp") "A.h" (some "/lib/A"),
         .expectEntry (some "/s/a.cpp") "C.h" (some "/lib/C"),
         .expectEnd]).entries
        = [IncludeCacheEntry.mk (some "/s/a.cpp") "A.h" (some "/lib/A"),
           IncludeCacheEntry.mk (some "/s/a.cpp") "B.h" (some "/lib/B")].take k ++
          freshAppends (loadedCache
            [⟨some "/s/a.cpp", "A.h", some "/lib/A"⟩, ⟨some "/s/a.cpp", "B.h", some "/lib/B"⟩])
            [.expectEntry (some "/s/a.cpp") "A.h" (some "/lib/A"),
             .expectEntry (some "/s/a.cpp") "C.h" (some "/lib/C"),
             .expectEnd] :=
  ⟨by decide, cache_prefix_plus_fresh _ _ (by decide)⟩

/-! ## Go string primitives
Character-list implementations of the Go `strings` functions used by the
build code, written so that the kernel can evaluate them on concrete
inputs.  Strings here are ASCII command lines, keys and paths, for which
Lean code points and Go bytes agree. -/

/-- `strings.HasPrefix`. -/
def goHasPre (s pre : String) : Bool := pre.data.isPrefixOf s.data

/-- `strings.HasSuffix`. -/
def goHasSuf (s suf : String) : Bool := suf.data.isSuffixOf s.data

/-- Leftmost, non-overlapping replacement of every occurrence of `pat` by
`rep`, on character lists; `fuel` is consumed one step per character so
`fuel = l.length` always suffices.  (Go `strings.Replace(s, old, new, -1)`
with a non-empty `old`; the build code never passes an empty `old`, and
this model leaves the string unchanged in that case.) -/
def replaceFuel (pat rep : List Char) : Nat → List Char → List Char
  | 0, l => l
  | _ + 1, [] => []
  | fuel + 1, c :: rest =>
      if pat ≠ [] ∧ pat.isPrefixOf (c :: rest) then
        rep ++ replaceFuel pat rep fuel ((c :: rest).drop pat.length)
      else c :: replaceFuel pat rep fuel rest

/-- `strings.Replace(s, pat, rep, -1)` (replace all). -/
def goReplaceAll (s pat rep : String) : String :=
  ⟨replaceFuel pat.data rep.data s.data.length s.data⟩

/-- Go `unicode.IsSpace` restricted to ASCII: space, `\t`, `\n`, vertical
tab, form feed, `\r` (non-ASCII Unicode white space elided). -/
def isGoSpace (c : Char) : Bool := c.toNat = 32 ∨ (9 ≤ c.toNat ∧ c.toNat ≤ 13)

/-- `strings.TrimSpace`. -/
def goTrimSpace (s : String) : String :=
  ⟨((s.data.dropWhile isGoSpace).reverse.dropWhile isGoSpace).reverse⟩

/-- `strings.Trim(s, " ")`: strip leading and trailing plain spaces. -/
def goTrimBlanks (s : String) : String :=
  ⟨((s.data.dropWhile (· = ' ')).reverse.dropWhile (· = ' ')).reverse⟩

/-! ## Property map and hook recipes
Embedded from `go-properties-orderedmap` (ordered key/value store, as used
by the build) and from `findRecipes` / `RecipeByPrefixSuffixRunner.Run`
(`legacy/builder/recipe_runner.go`, second file of `part_004`).  The map
is modelled as an association list in insertion order; `Get` of a missing
key returns `""`, `Set` updates in place or appends. -/

abbrev PropsMap := List (String × String)

/-- `Map.Get`: value of the first binding of the key, or `""`. -/
def propsGet : PropsMap → String → String
  | [], _ => ""
  | (k, v) :: rest, key => if k = key then v else propsGet rest key

/-- `Map.Set`: replace the value in place if the key exists, else append
the binding at the end (insertion order preserved). -/
def propsSet : PropsMap → String → String → PropsMap
  | [], key, value => [(key, value)]
  | (k, v) :: rest, key, value =>
      if k = key then (k, value) :: rest else (k, v) :: propsSet rest key value

/-- `Map.Keys`: the keys in insertion order. -/
def propsKeys (m : PropsMap) : List String := m.map Prod.fst

/-- Go string `<=` on character lists: byte-wise lexicographic (UTF-8
bytes in Go, code points here; identical on ASCII). -/
def charListLe : List Char → List Char → Bool
  | [], _ => true
  | _ :: _, [] => false
  | a :: as, b :: bs =>
      if a.toNat < b.toNat then true
      else if b.toNat < a.toNat then false
      else charListLe as bs

/-- Go string `<=` (the `sort.Strings` order). -/
def goStrLe (a b : String) : Bool := charListLe a.data b.data

/-- Insertion into a sorted list, the sorting step of `sort.Strings`. -/
def insertSorted (s : String) : List String → List String
  | [] => [s]
  | t :: rest => if goStrLe s t then s :: t :: rest else t :: insertSorted s rest

/-- `sort.Strings`: sort a string slice lexicographically. -/
def sortStrings : List String → List String
  | [] => []
  | s :: rest => insertSorted s (sortStrings rest)

/-- `findRecipes(buildProperties, patternPrefix, patternSuffix)`: collect
the keys that start with the given pattern opening, end with the given
pattern ending and have a non-empty value, then `sort.Strings` them.
`RecipeByPrefixSuffixRunner.Run` then executes the recipes sequentially
in exactly this list order. -/
def findRecipes (buildProperties : PropsMap) (patPre patSuf : String) : List String :=
  sortStrings ((propsKeys buildProperties).filter (fun key =>
    goHasPre key patPre && goHasSuf key patSuf &&
      propsGet buildProperties key != ""))

/-- The property map of the hook-ordering scenario: three prebuild hooks
with unpadded numbers 1, 2, 10. -/
def hookMapUnpadded : PropsMap :=
  [("recipe.hooks.sketch.prebuild.1.pattern", "echo a"),
   ("recipe.hooks.sketch.prebuild.2.pattern", "echo b"),
   ("recipe.hooks.sketch.prebuild.10.pattern", "echo j")]

/-- The same scenario with zero-padded numbers 01, 02, 10. -/
def hookMapPadded : PropsMap :=
  [("recipe.hooks.sketch.prebuild.01.pattern", "echo a"),
   ("recipe.hooks.sketch.prebuild.02.pattern", "echo b"),
   ("recipe.hooks.sketch.prebuild.10.pattern", "echo j")]

/-- C3 counterexample: with unpadded hook numbers 1, 2, 10 the runner's
enumeration is NOT in ascending numeric order — `sort.Strings` puts
`...10.pattern` before `...2.pattern`, so the execution order is
`echo a`, `echo j`, `echo b`, not `a`, `b`, `j` as claimed. -/
theorem findRecipes_unpadded_not_numeric :
    findRecipes hookMapUnpadded "recipe.hooks.sketch.prebuild" ".pattern" ≠
      ["recipe.hooks.sketch.prebuild.1.pattern",
       "recipe.hooks.sketch.prebuild.2.pattern",
       "recipe.hooks.sketch.prebuild.10.pattern"] ∧
    findRecipes hookMapUnpadded "recipe.hooks.sketch.prebuild" ".pattern" =
      ["recipe.hooks.sketch.prebuild.1.pattern",
       "recipe.hooks.sketch.prebuild.10.pattern",
       "recipe.hooks.sketch.prebuild.2.pattern"] := by
  constructor
  · decide
  · decide

/-- C3 amended: the enumeration is in lexicographic key order, so the
unpadded hooks 1, 2, 10 execute as `a`, `j`, `b`, while the zero-padded
variants 01, 02, 10 execute in numeric order `a`, `b`, `j`. -/
theorem findRecipes_lexicographic_order :
    findRecipes hookMapUnpadded "recipe.hooks.sketch.prebuild" ".pattern" =
      ["recipe.hooks.sketch.prebuild.1.pattern",
       "recipe.hooks.sketch.prebuild.10.pattern",
       "recipe.hooks.sketch.prebuild.2.pattern"] ∧
    findRecipes hookMapPadded "recipe.hooks.sketch.prebuild" ".pattern" =
      ["recipe.hooks.sketch.prebuild.01.pattern",
       "recipe.hooks.sketch.prebuild.02.pattern",
       "recipe.hooks.sketch.prebuild.10.pattern"] := by
  constructor
  · decide
  · decide

/-! ## The Sysprogs extension hook
Embedded from `ExpandSysprogsExtensionProperties` (`builder_utils`,
`part_004` lines 128-134).  Note: the definition in the source takes no
scope argument and reads the unscoped key `com.sysprogs.extraflags`
(its callers in `phases` pass a `"sketch"` / `"core"` scope argument,
which this definition does not accept or use). -/

/-- `ExpandSysprogsExtensionProperties(properties)`: clone, then append
`" " + Get("com.sysprogs.extraflags")` to `compiler.c.flags` and to
`compiler.cpp.flags`. -/
def ExpandSysprogsExtensionProperties (properties : PropsMap) : PropsMap :=
  let result := properties
  let result := propsSet result "compiler.c.flags"
    (propsGet result "compiler.c.flags" ++ " " ++ propsGet result "com.sysprogs.extraflags")
  let result := propsSet result "compiler.cpp.flags"
    (propsGet result "compiler.cpp.flags" ++ " " ++ propsGet result "com.sysprogs.extraflags")
  result

/-- `Get` after `Set`: the set key reads back the new value, all other
keys are unchanged. -/
theorem propsGet_propsSet (m : PropsMap) (k v k' : String) :
    propsGet (propsSet m k v) k' = if k = k' then v else propsGet m k' := by
  induction m with
  | nil =>
      by_cases h : k = k' <;> simp [propsSet, propsGet, h]
  | cons kv rest ih =>
      obtain ⟨a, b⟩ := kv
      by_cases hak : a = k
      · subst hak
        by_cases hk' : a = k' <;> simp [propsSet, propsGet, hk']
      · by_cases hk' : a = k'
        · subst hk'
          have hkk' : ¬ k = a := fun hh => hak hh.symm
          simp [propsSet, propsGet, hak, hkk']
        · simp [propsSet, propsGet, hak, hk', ih]

/-- The property map of the C8 counterexample scenario: a scoped
`com.sysprogs.extraflags.sketch` key is present, the unscoped key is
absent. -/
def sysprogsCexMap : PropsMap :=
  [("compiler.c.flags", "-a"), ("com.sysprogs.extraflags.sketch", "-X")]

/-- C8 counterexample: with `com.sysprogs.extraflags.sketch = "-X"` set
for the sketch scope, the function does NOT append `-X` to
`compiler.c.flags` (with or without a separating space): it appends the
value of the unscoped key `com.sysprogs.extraflags`, which is absent, so
the flags become `"-a "`. -/
theorem expandSysprogs_ignores_scoped_key :
    propsGet (ExpandSysprogsExtensionProperties sysprogsCexMap) "compiler.c.flags" = "-a " ∧
    propsGet (ExpandSysprogsExtensionProperties sysprogsCexMap) "compiler.c.flags" ≠ "-a -X" ∧
    propsGet (ExpandSysprogsExtensionProperties sysprogsCexMap) "compiler.c.flags" ≠ "-a-X" := by
  refine ⟨by decide, by decide, by decide⟩

/-- C8 amended: the returned map equals its input except that the value
of the UNSCOPED key `com.sysprogs.extraflags` (preceded by a space) is
appended to `compiler.c.flags` and to `compiler.cpp.flags`; the build
scope plays no part in the key. -/
theorem expandSysprogs_amended (m : PropsMap) (k : String)
    (hc : k ≠ "compiler.c.flags") (hcpp : k ≠ "compiler.cpp.flags") :
    propsGet (ExpandSysprogsExtensionProperties m) k = propsGet m k ∧
    propsGet (ExpandSysprogsExtensionProperties m) "compiler.c.flags" =
      propsGet m "compiler.c.flags" ++ " " ++ propsGet m "com.sysprogs.extraflags" ∧
    propsGet (ExpandSysprogsExtensionProperties m) "compiler.cpp.flags" =
      propsGet m "compiler.cpp.flags" ++ " " ++ propsGet m "com.sysprogs.extraflags" := by
  have hc' : ¬ ("compiler.c.flags" : String) = k := fun hh => hc hh.symm
  have hcpp' : ¬ ("compiler.cpp.flags" : String) = k := fun hh => hcpp hh.symm
  unfold ExpandSysprogsExtensionProperties
  refine ⟨?_, ?_, ?_⟩ <;>
    simp [propsGet_propsSet, hc', hcpp']

/-- Witness for `expandSysprogs_amended` at a concrete map and key. -/
theorem expandSysprogs_amended_witness :
    ("build.arch" : String) ≠ "compiler.c.flags" ∧
    propsGet (ExpandSysprogsExtensionProperties
        [("compiler.c.flags", "-a"), ("com.sysprogs.extraflags", "-X")]) "build.arch" =
      propsGet [("compiler.c.flags", "-a"), ("com.sysprogs.extraflags", "-X")] "build.arch" ∧
    propsGet (ExpandSysprogsExtensionProperties
        [("compiler.c.flags", "-a"), ("com.sysprogs.extraflags", "-X")]) "compiler.c.flags" =
      "-a" ++ " " ++ "-X" :=
  ⟨by decide,
   (expandSysprogs_amended [("compiler.c.flags", "-a"), ("com.sysprogs.extraflags", "-X")]
      "build.arch" (by decide) (by decide)).1,
   ((expandSysprogs_amended [("compiler.c.flags", "-a"), ("com.sysprogs.extraflags", "-X")]
      "build.arch" (by decide) (by decide)).2).1⟩

/-! ## Object-file up-to-date check
Embedded from `ObjFileIsUpToDate` (`builder_utils`, `part_004` lines
315-439) and its helpers.  The filesystem is a map from (canonical) path
to optional mtime; `Clean()` is the identity on the canonical paths used
here.  The dependency file's lines are passed directly (the read of the
existing `.d` file via `ReadFileAsLines` is external `go-paths-helper`
code whose I/O errors are not modelled). -/

/-- Errors surfaced by the embedded fallible code.  `panicOutOfRange`
marks a Go runtime panic (slice index out of range), which in Go crashes
the process rather than returning. -/
inductive GoError where
  | statError
  | panicOutOfRange
deriving DecidableEq, Repr

/-- The filesystem as seen through `os.Stat`: `none` means the path does
not exist (other stat failures are not distinguished). -/
structure BuildFs where
  mtimeOf : String → Option Nat

/-- `removeEndingBackSlash`: drop one trailing backslash. -/
def removeEndingBackSlash (s : String) : String :=
  if goHasSuf s "\\" then s.dropRight 1 else s

/-- `unescapeDep`: undo the make-style escapes written by gcc into `.d`
files (`\ `, `\<tab>`, `\#`, `$$`, `\\`), in the source's order. -/
def unescapeDep (s : String) : String :=
  let s := goReplaceAll s "\\ " " "
  let s := goReplaceAll s "\\\t" "\t"
  let s := goReplaceAll s "\\#" "#"
  let s := goReplaceAll s "$$" "$"
  let s := goReplaceAll s "\\\\" "\\"
  s

/-- `nonEmptyString`. -/
def nonEmptyString (s : String) : Bool := s != ""

/-- The row pipeline applied to the depfile lines: remove trailing
backslashes, trim space, unescape, drop empty lines. -/
def processDepRows (rows : List String) : List String :=
  (((rows.map removeEndingBackSlash).map goTrimSpace).map unescapeDep).filter nonEmptyString

/-- The dependency loop over `rows[1:]`: every listed path must exist
(any stat failure triggers a rebuild) and be no newer than the object. -/
def depsAreOlder (fs : BuildFs) (objectM : Nat) : List String → Bool
  | [] => true
  | row :: rest =>
      match fs.mtimeOf row with
      | none => false
      | some depM => if depM > objectM then false else depsAreOlder fs objectM rest

/-- `ObjFileIsUpToDate(ctx, sourceFile, objectFile, dependencyFile)`.
The nil-pointer guard on `objectFile`/`dependencyFile` is elided (the
paths are always non-nil values here); a failing stat of the source file
is an error; missing object or dependency file yields `false`. -/
def ObjFileIsUpToDate (fs : BuildFs) (depRows : List String)
    (sourceFile objectFile dependencyFile : String) : Except GoError Bool :=
  match fs.mtimeOf sourceFile with
  | none => .error .statError
  | some sourceM =>
  match fs.mtimeOf objectFile with
  | none => .ok false
  | some objectM =>
  match fs.mtimeOf dependencyFile with
  | none => .ok false
  | some depM =>
  if sourceM > objectM then .ok false
  else if sourceM > depM then .ok false
  else
    match processDepRows depRows with
    | [] => .ok true
    | firstRow :: restRows =>
      if !goHasSuf firstRow ":" then .ok false
      else if firstRow.dropRight 1 != objectFile then .ok false
      else
        match restRows with
        | [] => .error .panicOutOfRange
        | secondRow :: _ =>
            if sourceFile != goTrimBlanks secondRow then .ok false
            else .ok (depsAreOlder fs objectM restRows)

/-- The up-to-date condition exactly as C1 states it: `.o` and `.d`
exist; `.o` mtime at least the source mtime and the mtime of each
dependency listed in the depfile (each of which exists; the listed
dependencies are the processed lines from the second on); the first
processed line is the object path followed by a colon; the second
processed line is the source path. -/
def claimedUpToDate (fs : BuildFs) (depRows : List String)
    (sourceFile objectFile dependencyFile : String) : Bool :=
  match fs.mtimeOf sourceFile, fs.mtimeOf objectFile, fs.mtimeOf dependencyFile with
  | some sourceM, some objectM, some _ =>
      sourceM ≤ objectM &&
      (match processDepRows depRows with
       | firstRow :: secondRow :: rest =>
           firstRow == objectFile ++ ":" &&
           secondRow == sourceFile &&
           (secondRow :: rest).all (fun row =>
             match fs.mtimeOf row with
             | some rowM => decide (rowM ≤ objectM)
             | none => false)
       | _ => false)
  | _, _, _ => false

/-- The filesystem of the C1 counterexample: source newer than the
depfile itself but older than the object; all listed dependencies exist
and are older than the object. -/
def depFsCex : BuildFs :=
  ⟨fun p =>
    if p = "/b/s.cpp" then some 5
    else if p = "/b/s.cpp.o" then some 10
    else if p = "/b/s.cpp.d" then some 3
    else if p = "/core/h.h" then some 4
    else none⟩

/-- C1 counterexample: every condition listed by the claim holds (object
and depfile exist, object is no older than the source and than each
listed dependency, both header lines match), yet the code reports NOT up
to date, because it additionally requires the `.d` file's own mtime to be
at least the source mtime (here the depfile is older than the source). -/
theorem objUpToDate_claim_iff_fails :
    claimedUpToDate depFsCex ["/b/s.cpp.o:", "/b/s.cpp", "/core/h.h"]
        "/b/s.cpp" "/b/s.cpp.o" "/b/s.cpp.d" = true ∧
    ObjFileIsUpToDate depFsCex ["/b/s.cpp.o:", "/b/s.cpp", "/core/h.h"]
        "/b/s.cpp" "/b/s.cpp.o" "/b/s.cpp.d" = .ok false := by
  constructor
  · decide
  · rfl

/-- C10 / code bug input: a depfile whose processed lines are exactly the
single row `"<object path>:"`. -/
theorem objUpToDate_single_row_panics :
    ObjFileIsUpToDate ⟨fun p =>
        if p = "/b/s.cpp" then some 0
        else if p = "/b/s.cpp.o" then some 5
        else if p = "/b/s.cpp.d" then some 5
        else none⟩
      ["/b/s.cpp.o:"] "/b/s.cpp" "/b/s.cpp.o" "/b/s.cpp.d" = .error .panicOutOfRange := by
  rfl

/-- The dependency loop agrees with `List.all` over the processed rows. -/
theorem depsAreOlder_eq_all (fs : BuildFs) (objectM : Nat) (rows : List String) :
    depsAreOlder fs objectM rows =
      rows.all (fun row =>
        match fs.mtimeOf row with
        | some rowM => decide (rowM ≤ objectM)
        | none => false) := by
  induction rows with
  | nil => rfl
  | cons r rest ih =>
      cases h : fs.mtimeOf r with
      | none => simp [depsAreOlder, h]
      | some m =>
          by_cases hm : m > objectM
          · simp [depsAreOlder, h, hm, Nat.not_le.mpr hm]
          · have hle : m ≤ objectM := Nat.not_lt.mp hm
            simp [depsAreOlder, h, hm, hle, ih]

/-- The C1 condition as amended: additionally the `.d` file's own mtime
must be at least the source mtime; an empty processed depfile counts as
up to date; a depfile with exactly one processed line makes the check
crash (so it is never reported up to date); the second line is compared
after trimming spaces; the lines from the second on (the source line
included) are the checked dependencies. -/
def amendedUpToDate (fs : BuildFs) (depRows : List String)
    (sourceFile objectFile dependencyFile : String) : Bool :=
  match fs.mtimeOf sourceFile, fs.mtimeOf objectFile, fs.mtimeOf dependencyFile with
  | some sourceM, some objectM, some depM =>
      sourceM ≤ objectM && sourceM ≤ depM &&
      (match processDepRows depRows with
       | [] => true
       | firstRow :: restRows =>
           goHasSuf firstRow ":" && firstRow.dropRight 1 == objectFile &&
           (match restRows with
            | secondRow :: _ =>
                sourceFile == goTrimBlanks secondRow &&
                restRows.all (fun row =>
                  match fs.mtimeOf row with
                  | some rowM => decide (rowM ≤ objectM)
                  | none => false)
            | [] => false))
  | _, _, _ => false

/-- C1 amended: the check reports up to date exactly under the amended
condition, for every filesystem, depfile content and path triple. -/
theorem ObjFileIsUpToDate_ok_true_iff (fs : BuildFs) (depRows : List String)
    (src obj dep : String) :
    ObjFileIsUpToDate fs depRows src obj dep = .ok true ↔
      amendedUpToDate fs depRows src obj dep = true := by
  unfold ObjFileIsUpToDate amendedUpToDate
  cases hs : fs.mtimeOf src with
  | none => simp
  | some sourceM =>
  cases ho : fs.mtimeOf obj with
  | none => simp
  | some objectM =>
  cases hd : fs.mtimeOf dep with
  | none => simp
  | some depM =>
  by_cases h1 : sourceM > objectM
  · simp [h1, Nat.not_le.mpr h1]
  by_cases h2 : sourceM > depM
  · simp [h1, h2, Nat.not_le.mpr h2]
  have h1' : sourceM ≤ objectM := Nat.not_lt.mp h1
  have h2' : sourceM ≤ depM := Nat.not_lt.mp h2
  cases hrows : processDepRows depRows with
  | nil => simp [h1, h2, h1', h2']
  | cons firstRow restRows =>
      by_cases hc : goHasSuf firstRow ":"
      · by_cases hobj : firstRow.dropRight 1 = obj
        · cases restRows with
          | nil => simp [h1, h2, hc, hobj]
          | cons secondRow tail =>
              by_cases hsrc : src = goTrimBlanks secondRow
              · simp [h1, h2, h1', h2', hc, hobj, hsrc, depsAreOlder_eq_all]
              · simp [h1, h2, hc, hobj, hsrc]
        · simp [h1, h2, hc, hobj]
      · simp [h1, h2, hc]

/-! ## Persisting the journal (`writeCache`)
Embedded from `writeCache` (`container_find_includes.go` lines 265-285):
a still-valid cache only gets its file's timestamps touched
(`path.Chtimes(now, now)`); an invalidated cache is serialized with
`json.MarshalIndent(entries, "", "  ")` and written with a single
`path.WriteFile(bytes)` call (`ioutil.WriteFile` underneath).  The
filesystem effect is modelled as a trace of operations applied to a
contents/mtimes state. -/

/-- Lowercase hexadecimal digit. -/
def hexDigit (n : Nat) : Char :=
  if n < 10 then Char.ofNat (48 + n) else Char.ofNat (87 + n)

/-- `encoding/json` escaping of one character (default HTML-escaping
behaviour: `<`, `>`, `&` become `\u00..`; control characters likewise;
U+2028/U+2029 handling elided for the ASCII paths at hand). -/
def jsonEscapeChar (c : Char) : List Char :=
  if c = '"' then ['\\', '"']
  else if c = '\\' then ['\\', '\\']
  else if c = '\n' then ['\\', 'n']
  else if c = '\r' then ['\\', 'r']
  else if c = '\t' then ['\\', 't']
  else if c.toNat < 32 ∨ c = '<' ∨ c = '>' ∨ c = '&' then
    ['\\', 'u', '0', '0', hexDigit (c.toNat / 16), hexDigit (c.toNat % 16)]
  else [c]

/-- A JSON string literal for `s`. -/
def jsonStr (s : String) : String :=
  ⟨'"' :: (s.data.foldr (fun c acc => jsonEscapeChar c ++ acc) ['"'])⟩

/-- JSON for a nilable path: `json.Marshal` writes `null` for a nil
pointer, else the path as a JSON string (`paths.Path.MarshalJSON`). -/
def jsonOptPath : Option String → String
  | none => "null"
  | some s => jsonStr s

/-- Join strings with a separator. -/
def joinWith (sep : String) : List String → String
  | [] => ""
  | [x] => x
  | x :: rest => x ++ sep ++ joinWith sep (rest)

/-- One journal entry as laid out by `json.MarshalIndent(entries, "", "  ")`
(field order `Sourcefile`, `Include`, `Includepath`). -/
def marshalEntry (entry : IncludeCacheEntry) : String :=
  "  \x7b\n    \"Sourcefile\": " ++ jsonOptPath entry.Sourcefile ++
    ",\n    \"Include\": " ++ jsonStr entry.Include ++
    ",\n    \"Includepath\": " ++ jsonOptPath entry.Includepath ++ "\n  \x7d"

/-- `json.MarshalIndent(cache.entries, "", "  ")`. -/
def marshalIndentEntries (entries : List IncludeCacheEntry) : String :=
  match entries with
  | [] => "[]"
  | _ => "[\n" ++ joinWith ",\n" (entries.map marshalEntry) ++ "\n]"

/-- One filesystem operation issued while persisting the journal.
`rename` never occurs in the code; it is the shape the claim expects. -/
inductive FsOp where
  | chtimes (path : String)
  | writeFile (path : String) (contents : String)
  | rename (src : String) (dst : String)
deriving DecidableEq, Repr

/-- `writeCache(cache, path)` as its trace of filesystem operations. -/
def writeCacheOps (cache : IncludeCache) (path : String) : List FsOp :=
  if cache.valid then [.chtimes path]
  else [.writeFile path (marshalIndentEntries cache.entries)]

/-- Observable file state: contents and mtime by path. -/
structure CacheFs where
  contents : String → Option String
  mtimes : String → Nat

/-- Effect of one filesystem operation at time `now`. -/
def applyFsOp (now : Nat) (fs : CacheFs) : FsOp → CacheFs
  | .chtimes p =>
      { fs with mtimes := fun q => if q = p then now else fs.mtimes q }
  | .writeFile p c =>
      { contents := fun q => if q = p then some c else fs.contents q,
        mtimes := fun q => if q = p then now else fs.mtimes q }
  | .rename src dst =>
      { contents := fun q =>
          if q = dst then fs.contents src
          else if q = src then none
          else fs.contents q,
        mtimes := fun q => if q = dst then fs.mtimes src else fs.mtimes q }

/-- The file state after `writeCache`. -/
def runWriteCache (cache : IncludeCache) (path : String) (fs : CacheFs) (now : Nat) : CacheFs :=
  (writeCacheOps cache path).foldl (applyFsOp now) fs

/-- C4 counterexample: persisting an invalidated journal issues one
direct `WriteFile` on `includes.cache` itself — not a write to a
temporary file followed by a rename, as the claim requires. -/
theorem writeCache_not_atomic :
    writeCacheOps ⟨false, 0, []⟩ "/build/includes.cache" =
      [.writeFile "/build/includes.cache" "[]"] ∧
    ¬ (∃ tmp bytes, tmp ≠ "/build/includes.cache" ∧
        writeCacheOps ⟨false, 0, []⟩ "/build/includes.cache" =
          [.writeFile tmp bytes, .rename tmp "/build/includes.cache"]) := by
  refine ⟨rfl, ?_⟩
  rintro ⟨tmp, bytes, hne, h⟩
  simp [writeCacheOps] at h

/-- C4 amended: a still-valid journal leaves every file's contents
unchanged and only touches the cache file's timestamp; an invalidated
journal is serialized and written with a single direct (non-atomic)
write to `includes.cache`, leaving all other paths unchanged. -/
theorem writeCache_amended (cache : IncludeCache) (path : String) (fs : CacheFs) (now : Nat) :
    (cache.valid = true →
      writeCacheOps cache path = [.chtimes path] ∧
      (∀ q, (runWriteCache cache path fs now).contents q = fs.contents q) ∧
      (runWriteCache cache path fs now).mtimes path = now) ∧
    (cache.valid = false →
      writeCacheOps cache path = [.writeFile path (marshalIndentEntries cache.entries)] ∧
      (runWriteCache cache path fs now).contents path =
        some (marshalIndentEntries cache.entries) ∧
      (∀ q, q ≠ path → (runWriteCache cache path fs now).contents q = fs.contents q)) := by
  constructor
  · intro h
    refine ⟨by simp [writeCacheOps, h], ?_, ?_⟩
    · intro q; simp [runWriteCache, writeCacheOps, h, applyFsOp]
    · simp [runWriteCache, writeCacheOps, h, applyFsOp]
  · intro h
    refine ⟨by simp [writeCacheOps, h], ?_, ?_⟩
    · simp [runWriteCache, writeCacheOps, h, applyFsOp]
    · intro q hq; simp [runWriteCache, writeCacheOps, h, applyFsOp, hq]

/-- Witness for `writeCache_amended`: a valid journal only touches, an
invalidated empty journal writes the serialized empty array in place. -/
theorem writeCache_amended_witness :
    writeCacheOps (loadedCache []) "/b/includes.cache" = [.chtimes "/b/includes.cache"] ∧
    writeCacheOps ⟨false, 0, []⟩ "/b/includes.cache" =
      [.writeFile "/b/includes.cache" (marshalIndentEntries [])] :=
  ⟨((writeCache_amended (loadedCache []) "/b/includes.cache"
      ⟨fun _ => none, fun _ => 0⟩ 7).1 rfl).1,
   ((writeCache_amended ⟨false, 0, []⟩ "/b/includes.cache"
      ⟨fun _ => none, fun _ => 0⟩ 7).2 rfl).1⟩

/-! ## Cached core archive naming
Embedded from `GetCachedCoreArchiveFileName` (`phases/core_builder.go`,
second file of `container_add_prototypes.go`) and `utils.MD5Sum`
(`part_007`), which wraps the standard `crypto/md5` + `hex.EncodeToString`;
MD5 is implemented here in full over `Nat` bytes. -/

/-- Truncation to 32 bits. -/
def m32 (n : Nat) : Nat := n % 4294967296

/-- 32-bit left rotation (input below `2^32`). -/
def rotl32 (x s : Nat) : Nat := (x * 2 ^ s + x / 2 ^ (32 - s)) % 4294967296

/-- 32-bit bitwise complement (input below `2^32`). -/
def not32 (x : Nat) : Nat := 4294967295 - x

/-- The MD5 sine-derived constant table. -/
def md5K : List Nat :=
  [3614090360, 3905402710, 606105819, 3250441966, 4118548399, 1200080426, 2821735955, 4249261313,
   1770035416, 2336552879, 4294925233, 2304563134, 1804603682, 4254626195, 2792965006, 1236535329,
   4129170786, 3225465664, 643717713, 3921069994, 3593408605, 38016083, 3634488961, 3889429448,
   568446438, 3275163606, 4107603335, 1163531501, 2850285829, 4243563512, 1735328473, 2368359562,
   4294588738, 2272392833, 1839030562, 4259657740, 2763975236, 1272893353, 4139469664, 3200236656,
   681279174, 3936430074, 3572445317, 76029189, 3654602809, 3873151461, 530742520, 3299628645,
   4096336452, 1126891415, 2878612391, 4237533241, 1700485571, 2399980690, 4293915773, 2240044497,
   1873313359, 4264355552, 2734768916, 1309151649, 4149444226, 3174756917, 718787259, 3951481745]

/-- The MD5 per-round shift table. -/
def md5S : List Nat :=
  [7, 12, 17, 22, 7, 12, 17, 22, 7, 12, 17, 22, 7, 12, 17, 22,
   5, 9, 14, 20, 5, 9, 14, 20, 5, 9, 14, 20, 5, 9, 14, 20,
   4, 11, 16, 23, 4, 11, 16, 23, 4, 11, 16, 23, 4, 11, 16, 23,
   6, 10, 15, 21, 6, 10, 15, 21, 6, 10, 15, 21, 6, 10, 15, 21]

/-- UTF-8 encoding of one character (Go strings are UTF-8 bytes). -/
def utf8Encode (c : Char) : List Nat :=
  let n := c.toNat
  if n < 128 then [n]
  else if n < 2048 then [192 + n / 64, 128 + n % 64]
  else if n < 65536 then [224 + n / 4096, 128 + n / 64 % 64, 128 + n % 64]
  else [240 + n / 262144, 128 + n / 4096 % 64, 128 + n / 64 % 64, 128 + n % 64]

/-- The byte slice of a Go string. -/
def strToBytes (s : String) : List Nat := s.data.flatMap utf8Encode

/-- 64-bit little-endian byte encoding. -/
def le64 (n : Nat) : List Nat := (List.range 8).map (fun i => n / 2 ^ (8 * i) % 256)

/-- MD5 padding: `0x80`, zeros to 56 mod 64, then the bit length. -/
def padMessage (msg : List Nat) : List Nat :=
  let z := (119 - msg.length % 64) % 64
  msg ++ 128 :: List.replicate z 0 ++ le64 (8 * msg.length)

/-- Little-endian 32-bit words from bytes. -/
def bytesToWords : List Nat → List Nat
  | b0 :: b1 :: b2 :: b3 :: rest =>
      (b0 + 256 * (b1 + 256 * (b2 + 256 * b3))) :: bytesToWords rest
  | _ => []

/-- One of the 64 MD5 rounds. -/
def md5Step (M : Nat → Nat) (st : Nat × Nat × Nat × Nat) (i : Nat) : Nat × Nat × Nat × Nat :=
  let (a, b, c, d) := st
  let fg :=
    if i < 16 then (b.land c |>.lor ((not32 b).land d), i)
    else if i < 32 then (d.land b |>.lor ((not32 d).land c), (5 * i + 1) % 16)
    else if i < 48 then (b.xor c |>.xor d, (3 * i + 5) % 16)
    else (c.xor (b.lor (not32 d)), (7 * i) % 16)
  let rotated := rotl32 (m32 (a + fg.1 + md5K.getD i 0 + M fg.2)) (md5S.getD i 0)
  (d, m32 (b + rotated), b, c)

/-- MD5 compression of one 16-word block. -/
def md5Block (words : List Nat) (h : Nat × Nat × Nat × Nat) : Nat × Nat × Nat × Nat :=
  let M := fun i => words.getD i 0
  let (a, b, c, d) := (List.range 64).foldl (md5Step M) h
  (m32 (h.1 + a), m32 (h.2.1 + b), m32 (h.2.2.1 + c), m32 (h.2.2.2 + d))

/-- Split a padded byte list into word blocks (`n` is the block count). -/
def splitBlocks : Nat → List Nat → List (List Nat)
  | 0, _ => []
  | n + 1, bytes => bytesToWords (bytes.take 64) :: splitBlocks n (bytes.drop 64)

/-- Hex of one little-endian 32-bit word (`hex.EncodeToString` order). -/
def word32Hex (n : Nat) : List Char :=
  (List.range 4).flatMap (fun i =>
    let b := n / 2 ^ (8 * i) % 256
    [hexDigit (b / 16), hexDigit (b % 16)])

/-- `utils.MD5Sum(data)`: lowercase hex MD5 digest of the bytes of the
string. -/
def MD5Sum (data : String) : String :=
  let bytes := padMessage (strToBytes data)
  let blocks := splitBlocks (bytes.length / 64) bytes
  let (a, b, c, d) :=
    blocks.foldl (fun h w => md5Block w h) (1732584193, 4023233417, 2562383102, 271733878)
  ⟨word32Hex a ++ word32Hex b ++ word32Hex c ++ word32Hex d⟩

/-- The FQBN folding used in the archive name: `:` and `=` replaced by
`_`. -/
def fqbnToUnderscoreOf (fqbn : String) : String :=
  goReplaceAll (goReplaceAll fqbn ":" "_") "=" "_"

/-- `GetCachedCoreArchiveFileName(fqbn, optimizationFlags, coreFolder)`:
`core_<folded fqbn>_<md5(core folder path + flags)>.a`, falling back to
`core_<md5(folded fqbn + "_" + hash)>.a` above 100 characters.  The
`coreFolder.Abs()` step is the identity here: folder paths are given
absolute. -/
def GetCachedCoreArchiveFileName (fqbn optimizationFlags coreFolder : String) : String :=
  let fqbnToUnderscore := fqbnToUnderscoreOf fqbn
  let hash := MD5Sum (coreFolder ++ optimizationFlags)
  let realName := "core_" ++ fqbnToUnderscore ++ "_" ++ hash ++ ".a"
  if realName.length > 100 then
    "core_" ++ MD5Sum (fqbnToUnderscore ++ "_" ++ hash) ++ ".a"
  else realName

/-- C7 amended: the archive filename is a function of the folded FQBN,
the optimization flags and the core folder path alone — in particular it
does not depend on the core folder's contents, and FQBNs that agree after
replacing `:` and `=` by `_` collide. -/
theorem cachedCoreName_congr (f1 f2 flags folder : String)
    (h : fqbnToUnderscoreOf f1 = fqbnToUnderscoreOf f2) :
    GetCachedCoreArchiveFileName f1 flags folder =
      GetCachedCoreArchiveFileName f2 flags folder := by
  unfold GetCachedCoreArchiveFileName
  rw [h]

/-- Witness for `cachedCoreName_congr` at the colliding FQBN pair. -/
theorem cachedCoreName_congr_witness :
    fqbnToUnderscoreOf "arduino:avr:uno" = fqbnToUnderscoreOf "arduino_avr_uno" ∧
    GetCachedCoreArchiveFileName "arduino:avr:uno" "-Os" "/cores/avr" =
      GetCachedCoreArchiveFileName "arduino_avr_uno" "-Os" "/cores/avr" :=
  ⟨by decide,
   cachedCoreName_congr "arduino:avr:uno" "arduino_avr_uno" "-Os" "/cores/avr" (by decide)⟩

/-- C7 counterexample: changing the FQBN does not always change the
filename — `arduino:avr:uno` and `arduino_avr_uno` are distinct FQBN
strings with identical archive names (and the name hashes the core
folder path plus flags, never the folder contents). -/
theorem cachedCoreName_fqbn_collision :
    GetCachedCoreArchiveFileName "arduino:avr:uno" "-Os" "/cores/avr" =
      GetCachedCoreArchiveFileName "arduino_avr_uno" "-Os" "/cores/avr" ∧
    ("arduino:avr:uno" : String) ≠ "arduino_avr_uno" := by
  refine ⟨?_, by decide⟩
  have h : fqbnToUnderscoreOf "arduino:avr:uno" = fqbnToUnderscoreOf "arduino_avr_uno" := by
    decide
  unfold GetCachedCoreArchiveFileName
  rw [h]

/-! ## The include-discovery engine (`findIncludesUntilDone`)
Embedded from `container_find_includes.go` lines 287-416.  The library
type carries the fields the engine consults (`libraries.Library` itself
is outside `src/`); `SourceFile` is modelled from the spec, section 3
("Source file. Tuple (origin, path-relative-to-origin) ... stored in a
deduplicating FIFO queue"), carrying its absolute source path, with the
object/depfile path mapping supplied by the environment (the
`SourcePath`/`ObjectPath`/`DepfilePath` accessors live in a `types` file
not present under `src/`).  The preprocessor child process, the stderr
regex scraper (`IncludesFinderWithRegExp`) and the library resolver
(`ResolveLibrary`), also outside `src/`, enter as environment functions:
the preprocessor outcome already carries the include name its stderr
scrape extracts. -/

/-- The library fields consulted by discovery.  `sourceDirsList` is the
`SourceDirs()` list of (folder, recurse) pairs. -/
structure GoLibrary where
  name : String
  sourceDir : String
  utilityDir : Option String
  precompiled : Bool
  precompiledWithSources : Bool
  sourceDirsList : List (String × Bool)
deriving DecidableEq, Repr

/-- The origin of a collected source file (`SourceFile.Origin`). -/
inductive SourceOrigin where
  | sketch
  | library (lib : GoLibrary)
deriving DecidableEq, Repr

/-- A collected source file with its resolved absolute path. -/
structure SourceFile where
  origin : SourceOrigin
  path : String
deriving DecidableEq, Repr

/-- `UniqueSourceFileQueue.Push`: append unless already present
(`sliceContainsSourceFile` compares origin and path). -/
def queuePush (queue : List SourceFile) (value : SourceFile) : List SourceFile :=
  if queue.contains value then queue else queue ++ [value]

/-- Outcome of one preprocessor invocation, with the missing-include
name already extracted from stderr by the regex scraper (empty when the
scrape finds nothing): exit 0, exit error with stderr, or a hard spawn
failure. -/
inductive PreprocOutcome where
  | ok
  | exitErr (extracted : String)
  | hardErr
deriving DecidableEq, Repr

/-- The environment of a discovery run. -/
structure DiscoveryEnv where
  fs : BuildFs
  depRowsOf : String → List String
  objPathOf : String → String
  depPathOf : String → String
  preproc : String → List String → PreprocOutcome
  resolveLib : String → Option GoLibrary
  filesInFolder : String → Bool → List String

/-- The mutable context fields touched by discovery. -/
structure DiscoveryState where
  cache : IncludeCache
  includeFolders : List String
  importedLibraries : List GoLibrary
  queue : List SourceFile
deriving DecidableEq, Repr

/-- Discovery failures. -/
inductive DiscError where
  | goError (e : GoError)
  | preprocFailed
  | unresolvedInclude
  | internalCacheError
  | fuelOut
deriving DecidableEq, Repr

/-- The `for` loop of `findIncludesUntilDone`, with `fuel` bounding the
iteration count (each Go iteration consumes one unit; the verbose-only
`first` flag is dropped).  Each iteration: journal cursor check; skip
fully precompiled libraries; take the include from the journal when the
source is unchanged and the journal valid, else run the preprocessor; on
no missing include record the terminal entry; else resolve the library,
append it, extend the include folders, record the journal entry and
enqueue the library sources. -/
def findIncludesLoop (env : DiscoveryEnv) (sourceFile : SourceFile) (sourcePath : String)
    (unchanged : Bool) : Nat → DiscoveryState → Except DiscError DiscoveryState
  | 0, _ => .error .fuelOut
  | fuel + 1, s0 =>
      let s := { s0 with cache := s0.cache.ExpectFile sourcePath }
      let includes := s.includeFolders ++
        (match sourceFile.origin with
         | .library lib => (match lib.utilityDir with | some u => [u] | none => [])
         | .sketch => [])
      if (match sourceFile.origin with
          | .library lib => lib.precompiled && lib.precompiledWithSources
          | .sketch => false) then
        .ok s
      else
        let step : Except DiscError (String × Bool) :=
          if unchanged ∧ s.cache.valid then
            match s.cache.NextEntry with
            | some e => .ok (e.Include, false)
            | none => .error (.goError .panicOutOfRange)
          else
            match env.preproc sourcePath includes with
            | .ok => .ok ("", true)
            | .exitErr extracted => .ok (extracted, true)
            | .hardErr => .error .preprocFailed
        match step with
        | .error e => .error e
        | .ok (includeName, viaPreproc) =>
          if includeName = "" then
            .ok { s with cache := s.cache.ExpectEntry (some sourcePath) "" none }
          else
            match env.resolveLib includeName with
            | none =>
                if viaPreproc then .error .unresolvedInclude
                else
                  match env.preproc sourcePath includes with
                  | .ok => .error .internalCacheError
                  | _ => .error .unresolvedInclude
            | some library =>
                let s := { s with
                  importedLibraries := s.importedLibraries ++ [library],
                  includeFolders := s.includeFolders ++ [library.sourceDir],
                  cache := s.cache.ExpectEntry (some sourcePath) includeName
                    (some library.sourceDir) }
                let s := { s with
                  queue := library.sourceDirsList.foldl (fun q dr =>
                    (env.filesInFolder dr.1 dr.2).foldl
                      (fun q f => queuePush q ⟨.library library, f⟩) q) s.queue }
                findIncludesLoop env sourceFile sourcePath unchanged fuel s

/-- `findIncludesUntilDone(ctx, cache, sourceFile)`: up-to-date check of
the source against its object/depfile pair, then the discovery loop. -/
def findIncludesUntilDone (env : DiscoveryEnv) (fuel : Nat) (s : DiscoveryState)
    (sourceFile : SourceFile) : Except DiscError DiscoveryState :=
  match ObjFileIsUpToDate env.fs (env.depRowsOf (env.depPathOf sourceFile.path))
      sourceFile.path (env.objPathOf sourceFile.path) (env.depPathOf sourceFile.path) with
  | .error e => .error (.goError e)
  | .ok unchanged => findIncludesLoop env sourceFile sourceFile.path unchanged fuel s

/-- The fully precompiled library of the C6 scenario. -/
def cexFooLib : GoLibrary :=
  { name := "Foo", sourceDir := "/lib/Foo/src", utilityDir := none,
    precompiled := true, precompiledWithSources := true,
    sourceDirsList := [("/lib/Foo/src", true)] }

/-- The C6 scenario environment: the sketch's first preprocessor run
reports `Foo.h` missing; with the library folder on the include path it
succeeds; `Foo.h` resolves to the fully precompiled library. -/
def cexEnv : DiscoveryEnv :=
  { fs := ⟨fun p => if p = "/b/sketch.cpp" then some 5 else none⟩,
    depRowsOf := fun _ => [],
    objPathOf := fun p => p ++ ".o",
    depPathOf := fun p => p ++ ".d",
    preproc := fun _ includes => if includes.isEmpty then .exitErr "Foo.h" else .ok,
    resolveLib := fun inc => if inc = "Foo.h" then some cexFooLib else none,
    filesInFolder := fun dir _ =>
      if dir = "/lib/Foo/src" then ["/lib/Foo/src/foo.cpp"] else [] }

/-- Fresh per-run state with no cache file (`readCache` failure gives an
empty, invalid cache). -/
def cexState0 : DiscoveryState :=
  { cache := ⟨false, 0, []⟩, includeFolders := [], importedLibraries := [], queue := [] }

/-- C6 counterexample: discovering the fully precompiled library DOES
enqueue its source file on the work queue, and the journal entry records
the library's source directory as the include path, not an empty one. -/
theorem precompiled_full_enqueued_and_path_recorded :
    findIncludesUntilDone cexEnv 3 cexState0 ⟨.sketch, "/b/sketch.cpp"⟩ =
      .ok { cache := ⟨false, 0,
              [⟨some "/b/sketch.cpp", "Foo.h", some "/lib/Foo/src"⟩,
               ⟨some "/b/sketch.cpp", "", none⟩]⟩,
            includeFolders := ["/lib/Foo/src"],
            importedLibraries := [cexFooLib],
            queue := [⟨.library cexFooLib, "/lib/Foo/src/foo.cpp"⟩] } := by
  rfl

/-- C6 amended: the pruning happens at processing time, not enqueue
time — when a source file whose origin is a `precompiled=full` library
is dequeued and processed (and its up-to-date check returns), discovery
returns immediately after the journal cursor check: the preprocessor
result is irrelevant, nothing is enqueued, no library or include folder
is added and no journal entry is appended (the cursor check may only
invalidate/truncate). -/
theorem precompiled_full_skip (env : DiscoveryEnv) (fuel : Nat) (s : DiscoveryState)
    (lib : GoLibrary) (f : String) (b : Bool)
    (hpre : lib.precompiled = true) (hfull : lib.precompiledWithSources = true)
    (hstat : ObjFileIsUpToDate env.fs (env.depRowsOf (env.depPathOf f)) f
      (env.objPathOf f) (env.depPathOf f) = .ok b) :
    findIncludesUntilDone env (fuel + 1) s ⟨.library lib, f⟩ =
      .ok { s with cache := s.cache.ExpectFile f } := by
  unfold findIncludesUntilDone
  simp only [hstat]
  unfold findIncludesLoop
  simp [hpre, hfull]

/-- Witness for `precompiled_full_skip` at a concrete precompiled
library source file. -/
theorem precompiled_full_skip_witness :
    ObjFileIsUpToDate cexEnv.fs (cexEnv.depRowsOf (cexEnv.depPathOf "/b/sketch.cpp"))
        "/b/sketch.cpp" (cexEnv.objPathOf "/b/sketch.cpp")
        (cexEnv.depPathOf "/b/sketch.cpp") = .ok false ∧
    findIncludesUntilDone cexEnv 1 cexState0 ⟨.library cexFooLib, "/b/sketch.cpp"⟩ =
      .ok { cexState0 with cache := cexState0.cache.ExpectFile "/b/sketch.cpp" } :=
  ⟨by rfl,
   precompiled_full_skip cexEnv 0 cexState0 cexFooLib "/b/sketch.cpp" false rfl rfl (by rfl)⟩

/-! ## The parallel compile scheduler (`compileFilesWithRecipe`)
Embedded from `builder_utils` (`part_004` lines 197-257) as a small-step
interleaving machine.  The feeder goroutine alternates between checking
the error list under its mutex (`phase = idle`, moving to `done` when an
error is seen or all sources are fed, else to `ready`) and sending the
next source on the unbuffered channel (`phase = ready`; the send
completes when an idle worker receives, which is the hand-off step).
Workers finish one job at a time, appending under the mutexes either the
error or the object file.  The per-file work (`compileFileWithRecipe`)
enters as the environment's `compileResult`. -/

/-- The feeder's position in its loop. -/
inductive FeederPhase where
  | idle
  | ready
  | done
deriving DecidableEq, Repr

/-- One worker goroutine: waiting on the channel or running a job. -/
inductive WorkerState where
  | idle
  | busy (source : String)
deriving DecidableEq, Repr

/-- The scheduler environment: the source list being fed and the
deterministic per-source compile outcome. -/
structure SchedEnv where
  sources : List String
  compileResult : String → Except String String

/-- The shared scheduler state. -/
structure SchedState where
  fed : Nat
  phase : FeederPhase
  workers : List WorkerState
  errorsList : List String
  objectFiles : List String
deriving DecidableEq, Repr

/-- Feeder steps: from `idle`, observe the error list; stop (`done`) on a
seen error or when all sources are fed (closing the channel), otherwise
commit to sending the next source (`ready`). -/
def feederSteps (env : SchedEnv) (s : SchedState) : List SchedState :=
  match s.phase with
  | .idle =>
      if s.fed < env.sources.length then
        if s.errorsList.isEmpty then [{ s with phase := .ready }]
        else [{ s with phase := .done }]
      else [{ s with phase := .done }]
  | _ => []

/-- Hand-off steps: a committed send completes with any idle worker
receiving the next source. -/
def handOffSteps (env : SchedEnv) (s : SchedState) : List SchedState :=
  match s.phase with
  | .ready =>
      (List.range s.workers.length).filterMap (fun i =>
        match s.workers.get? i with
        | some .idle =>
            some { s with
              workers := s.workers.set i (.busy (env.sources.getD s.fed "")),
              fed := s.fed + 1, phase := .idle }
        | _ => none)
  | _ => []

/-- Worker finish steps: a busy worker completes its job, appending the
error or the object file under the respective mutex. -/
def finishSteps (env : SchedEnv) (s : SchedState) : List SchedState :=
  (List.range s.workers.length).filterMap (fun i =>
    match s.workers.get? i with
    | some (.busy src) =>
        some (match env.compileResult src with
          | .error e =>
              { s with workers := s.workers.set i .idle,
                       errorsList := s.errorsList ++ [e] }
          | .ok o =>
              { s with workers := s.workers.set i .idle,
                       objectFiles := s.objectFiles ++ [o] })
    | _ => none)

/-- All interleaving successors of a scheduler state. -/
def nextStates (env : SchedEnv) (s : SchedState) : List SchedState :=
  feederSteps env s ++ handOffSteps env s ++ finishSteps env s

/-- A valid interleaving: consecutive states are related by a step. -/
def validTrace (env : SchedEnv) : List SchedState → Bool
  | [] => true
  | [_] => true
  | a :: b :: rest => decide (b ∈ nextStates env a) && validTrace env (b :: rest)

/-- Only hand-off steps increment `fed`, so this recognises them. -/
def isHandOff (a b : SchedState) : Bool := b.fed = a.fed + 1

/-- Number of hand-offs (sources enqueued) along a trace. -/
def countHandOffs : List SchedState → Nat
  | a :: b :: rest => (if isHandOff a b then 1 else 0) + countHandOffs (b :: rest)
  | _ => 0

/-- The scheduler's return (the code after `wg.Wait()`): the first
recorded error with no object list, or the sorted object files. -/
def schedulerResult (s : SchedState) : Except String (List String) :=
  match s.errorsList with
  | e :: _ => .error e
  | [] => .ok (sortStrings s.objectFiles)

/-- How many hand-offs can still happen once an error is recorded: one
if the feeder is already committed to a send, none otherwise. -/
def phaseBound (s : SchedState) : Nat :=
  match s.phase with
  | .ready => 1
  | _ => 0

/-- The scheduler environment of the C5 counterexample: two sources on
one worker; the first compile fails. -/
def cexSchedEnv : SchedEnv :=
  { sources := ["a.c", "b.c"],
    compileResult := fun src =>
      if src = "a.c" then .error "boom" else .ok (src ++ ".o") }

/-- C5 counterexample: a valid interleaving in which the compile failure
of `a.c` is recorded (state 5) and the feeder — already past its error
check — still hands `b.c` to the worker afterwards (state 6): a source
IS enqueued after the failure is recorded. -/
theorem feeder_enqueues_after_error :
    validTrace cexSchedEnv
      [⟨0, .idle, [.idle], [], []⟩,
       ⟨0, .ready, [.idle], [], []⟩,
       ⟨1, .idle, [.busy "a.c"], [], []⟩,
       ⟨1, .ready, [.busy "a.c"], [], []⟩,
       ⟨1, .ready, [.idle], ["boom"], []⟩,
       ⟨2, .idle, [.busy "b.c"], ["boom"], []⟩] = true ∧
    (SchedState.mk 1 .ready [.idle] ["boom"] []).errorsList ≠ [] ∧
    isHandOff ⟨1, .ready, [.idle], ["boom"], []⟩ ⟨2, .idle, [.busy "b.c"], ["boom"], []⟩ = true := by
  refine ⟨by decide, by decide, by decide⟩

/-- Facts about any single scheduler step: errors only get appended;
hand-offs only happen from a committed feeder and return it to its
check; a feeder that observed an error stops (no hand-off and never
`ready` again); `done` is absorbing. -/
theorem step_facts (env : SchedEnv) (s t : SchedState) (h : t ∈ nextStates env s) :
    (∃ app, t.errorsList = s.errorsList ++ app) ∧
    (isHandOff s t = true → s.phase = .ready ∧ t.phase = .idle) ∧
    (s.phase = .idle → ¬ s.errorsList.isEmpty → t.phase ≠ .ready ∧ isHandOff s t = false) ∧
    (s.phase = .done → t.phase = .done ∧ isHandOff s t = false) := by
  have hfedself : ∀ n : Nat, (decide (n = n + 1)) = false := by
    intro n; simp [Nat.ne_of_lt (Nat.lt_succ_self n)]
  have hsame : ∀ t' : SchedState, t'.fed = s.fed → t'.phase = s.phase →
      (∃ app, t'.errorsList = s.errorsList ++ app) →
      (∃ app, t'.errorsList = s.errorsList ++ app) ∧
      (isHandOff s t' = true → s.phase = .ready ∧ t'.phase = .idle) ∧
      (s.phase = .idle → ¬ s.errorsList.isEmpty → t'.phase ≠ .ready ∧ isHandOff s t' = false) ∧
      (s.phase = .done → t'.phase = .done ∧ isHandOff s t' = false) := by
    intro t' hfed hphase happ
    have hhofalse : isHandOff s t' = false := by
      rw [isHandOff, hfed]; exact hfedself s.fed
    refine ⟨happ, ?_, ?_, ?_⟩
    · intro hch; rw [hhofalse] at hch; cases hch
    · intro hidle _
      exact ⟨(by rw [hphase, hidle]; intro hx; cases hx), hhofalse⟩
    · intro hdone
      exact ⟨by rw [hphase, hdone], hhofalse⟩
  rw [nextStates, List.mem_append, List.mem_append] at h
  rcases h with (hf | hho) | hfin
  · -- feeder step
    have hnotho : ∀ t' : SchedState, t'.fed = s.fed → isHandOff s t' = false := by
      intro t' hfd; rw [isHandOff, hfd]; exact hfedself s.fed
    cases hp : s.phase <;> simp [feederSteps, hp] at hf
    by_cases h1 : s.fed < env.sources.length
    · by_cases h2 : s.errorsList = []
      · simp [h1, h2] at hf
        subst hf
        refine ⟨⟨[], by simp [h2]⟩, ?_, ?_, ?_⟩
        · intro hch; simp [isHandOff] at hch
        · intro _ hni; exact (hni (by rw [h2]; rfl)).elim
        · intro hx; cases hx
      · simp [h1, h2] at hf
        subst hf
        refine ⟨⟨[], by simp⟩, ?_, ?_, ?_⟩
        · intro hch; simp [isHandOff] at hch
        · intro _ _; exact ⟨(by intro hx; cases hx), hnotho _ rfl⟩
        · intro hx; cases hx
    · simp [h1] at hf
      subst hf
      refine ⟨⟨[], by simp⟩, ?_, ?_, ?_⟩
      · intro hch; simp [isHandOff] at hch
      · intro _ _; exact ⟨(by intro hx; cases hx), hnotho _ rfl⟩
      · intro hx; cases hx
  · -- hand-off step
    cases hp : s.phase <;> simp [handOffSteps, hp] at hho
    obtain ⟨i, hi, heq⟩ := hho
    cases hw : s.workers[i]? with
    | none => rw [hw] at heq; cases heq
    | some w =>
        rw [hw] at heq
        cases w with
        | idle =>
            simp only [Option.some_inj] at heq
            subst heq
            refine ⟨⟨[], by simp⟩, fun _ => ⟨rfl, rfl⟩, ?_, ?_⟩ <;>
              intro hx <;> cases hx
        | busy src => cases heq
  · -- worker finish step
    simp only [finishSteps, List.mem_filterMap] at hfin
    obtain ⟨i, hi, heq⟩ := hfin
    cases hw : s.workers.get? i with
    | none => rw [hw] at heq; cases heq
    | some w =>
        rw [hw] at heq
        cases w with
        | idle => cases heq
        | busy src =>
            simp only [Option.some_inj] at heq
            subst heq
            cases hr : env.compileResult src with
            | error e =>
                exact hsame _ (by simp [hr]) (by simp [hr]) ⟨[e], by simp [hr]⟩
            | ok o =>
                exact hsame _ (by simp [hr]) (by simp [hr]) ⟨[], by simp [hr]⟩

/-- Once an error is recorded, at most `phaseBound` further sources are
ever handed to workers along any valid interleaving: none if the feeder
is at its check or stopped, one if it is already committed to a send. -/
theorem countHandOffs_bound (env : SchedEnv) :
    ∀ trace : List SchedState, validTrace env trace = true →
      ∀ s, trace.head? = some s → s.errorsList ≠ [] →
        countHandOffs trace ≤ phaseBound s := by
  intro trace
  induction trace with
  | nil => intro _ s hs; simp at hs
  | cons a tail ih =>
      intro hv s hs he
      simp only [List.head?] at hs
      injection hs with hs; subst hs
      cases tail with
      | nil => simp [countHandOffs, phaseBound]
      | cons b rest =>
          rw [validTrace, Bool.and_eq_true, decide_eq_true_eq] at hv
          obtain ⟨hmem, hv'⟩ := hv
          obtain ⟨⟨app, happ⟩, hhand, hidle, hdone⟩ := step_facts env a b hmem
          have hbe : b.errorsList ≠ [] := by
            rw [happ]; intro hzz
            exact he (List.append_eq_nil.mp hzz).1
          have hIH : countHandOffs (b :: rest) ≤ phaseBound b := ih hv' b rfl hbe
          by_cases hho : isHandOff a b = true
          · obtain ⟨hpa, hpb⟩ := hhand hho
            have hba : phaseBound b = 0 := by simp [phaseBound, hpb]
            have hpa1 : phaseBound a = 1 := by simp [phaseBound, hpa]
            rw [countHandOffs, hho, if_pos rfl, hpa1]
            omega
          · have hne : (if isHandOff a b then 1 else 0) = 0 := by simp [hho]
            rw [countHandOffs, hne, Nat.zero_add]
            have hble : phaseBound b ≤ phaseBound a := by
              cases hpa : a.phase with
              | idle =>
                  have hnr := (hidle hpa (by simpa using he)).1
                  cases hpb : b.phase with
                  | ready => exact absurd hpb hnr
                  | idle => simp [phaseBound, hpa, hpb]
                  | done => simp [phaseBound, hpa, hpb]
              | ready =>
                  cases hpb : b.phase <;> simp [phaseBound, hpa, hpb]
              | done =>
                  have hpb := (hdone hpa).1
                  simp [phaseBound, hpa, hpb]
            omega

/-- The Go string order is total. -/
theorem charListLe_total (a : List Char) : ∀ b, charListLe a b = true ∨ charListLe b a = true := by
  induction a with
  | nil => intro b; left; rfl
  | cons x xs ih =>
      intro b
      cases b with
      | nil => right; rfl
      | cons y ys =>
          by_cases h1 : x.toNat < y.toNat
          · left; simp [charListLe, h1]
          · by_cases h2 : y.toNat < x.toNat
            · right; simp [charListLe, h2]
            · cases ih ys with
              | inl h => left; simp [charListLe, h1, h2, h]
              | inr h => right; simp [charListLe, h1, h2, h]

/-- `goStrLe` is total. -/
theorem goStrLe_total (a b : String) : goStrLe a b = true ∨ goStrLe b a = true :=
  charListLe_total a.data b.data

/-- Sorted in the `sort.Strings` order (adjacent pairs). -/
def sortedStr (l : List String) : Prop :=
  List.Chain' (fun a b => goStrLe a b = true) l

/-- Insertion keeps a sorted list sorted. -/
theorem insertSorted_sorted (s : String) (l : List String) (h : sortedStr l) :
    sortedStr (insertSorted s l) := by
  induction l with
  | nil => simp [insertSorted, sortedStr]
  | cons t rest ih =>
      by_cases hle : goStrLe s t = true
      · rw [sortedStr]
        simp only [insertSorted, hle, if_true]
        exact List.chain'_cons.mpr ⟨hle, h⟩
      · have hts : goStrLe t s = true := (goStrLe_total s t).resolve_left hle
        have hrest : sortedStr (insertSorted s rest) := ih (List.Chain'.tail h)
        rw [sortedStr] at hrest ⊢
        simp only [insertSorted, hle, if_false, Bool.false_eq_true]
        rw [List.chain'_cons']
        refine ⟨?_, hrest⟩
        intro y hy
        cases rest with
        | nil => simp [insertSorted] at hy; subst hy; exact hts
        | cons r rs =>
            by_cases h2 : goStrLe s r = true
            · simp [insertSorted, h2] at hy; subst hy; exact hts
            · simp [insertSorted, h2] at hy
              subst hy
              exact (List.chain'_cons.mp h).1

/-- `sortStrings` yields a list sorted in the Go string order. -/
theorem sortStrings_sorted (l : List String) : sortedStr (sortStrings l) := by
  induction l with
  | nil => simp [sortStrings, sortedStr]
  | cons s rest ih => exact insertSorted_sorted s (sortStrings rest) ih

/-- C5 amended: once a compile failure is recorded, at most one more
source (one already past the feeder's error check) is ever handed to a
worker, and none once the feeder is at its check or stopped; whenever
any error was recorded the scheduler returns the FIRST recorded error
and no object list; with no error it returns the object files sorted in
the `sort.Strings` path order. -/
theorem compileFilesWithRecipe_amended (env : SchedEnv) (trace : List SchedState)
    (s : SchedState) (hv : validTrace env trace = true) (hh : trace.head? = some s)
    (he : s.errorsList ≠ []) :
    countHandOffs trace ≤ phaseBound s ∧
    (∀ t : SchedState, ∀ e rest, t.errorsList = e :: rest → schedulerResult t = .error e) ∧
    (∀ t : SchedState, t.errorsList = [] →
      schedulerResult t = .ok (sortStrings t.objectFiles) ∧
      sortedStr (sortStrings t.objectFiles)) := by
  refine ⟨countHandOffs_bound env trace hv s hh he, ?_, ?_⟩
  · intro t e rest ht; simp [schedulerResult, ht]
  · intro t ht; exact ⟨by simp [schedulerResult, ht], sortStrings_sorted _⟩

/-- Witness for `compileFilesWithRecipe_amended` at a concrete
post-failure state: the feeder is at its check, so the bound is zero,
and the recorded error is the returned one. -/
theorem compileFilesWithRecipe_amended_witness :
    validTrace cexSchedEnv [⟨1, .idle, [.idle], ["boom"], []⟩] = true ∧
    countHandOffs [⟨1, .idle, [.idle], ["boom"], []⟩] ≤
      phaseBound ⟨1, .idle, [.idle], ["boom"], []⟩ ∧
    schedulerResult ⟨1, .idle, [.idle], ["boom"], []⟩ = .error "boom" :=
  ⟨by decide,
   (compileFilesWithRecipe_amended cexSchedEnv [⟨1, .idle, [.idle], ["boom"], []⟩]
      ⟨1, .idle, [.idle], ["boom"], []⟩ (by decide) rfl (by decide)).1,
   (compileFilesWithRecipe_amended cexSchedEnv [⟨1, .idle, [.idle], ["boom"], []⟩]
      ⟨1, .idle, [.idle], ["boom"], []⟩ (by decide) rfl (by decide)).2.1
     ⟨1, .idle, [.idle], ["boom"], []⟩ "boom" [] rfl⟩
